import Mathlib

/-!
Verification of the `nftimg` image-stylization pipeline (Rust + OpenCV).

The repository has two source files:
* `src/main.rs` — CLI entry point: requires exactly one positional argument
  (so `env::args().len() == 2`), otherwise returns `Ok(())` immediately;
  on a single argument it calls `nftimg::convert` and propagates its error.
* `src/lib.rs` — `convert` derives `folder`/`filename` from the input path
  (panicking via `unwrap` when `Path::parent`/`Path::file_name` fail), loads
  the image, runs the six-stage OpenCV pipeline, and writes the result to
  `format!("{}/{}", folder, filename.replace(".", ".nft."))`.

External library calls (OpenCV, Rust `std::path`) are not part of the
repository's sources. Stages whose pixel-level behaviour the specification
describes (adaptive threshold, dilation, masked bitwise AND, channel
extraction) are modelled concretely from the spec; stages the spec leaves
algorithmically open (colour conversion, mean-shift, anisotropic diffusion,
image decode/encode) are fields of an environment record `Env`, constrained
in theorems only by the properties the spec states (e.g. dimension
preservation). Rust `std::path` parent / file-name extraction and
`str::replace` are modelled from their documented behaviour.
-/

/-- Error values are opaque; the code only propagates them unchanged. -/
abbrev Err := String

instance {e a : Type} [DecidableEq e] [DecidableEq a] : DecidableEq (Except e a) := fun x y =>
  match x, y with
  | .error u, .error v => decidable_of_iff (u = v) (by simp)
  | .error _, .ok _ => isFalse (by simp)
  | .ok _, .error _ => isFalse (by simp)
  | .ok u, .ok v => decidable_of_iff (u = v) (by simp)

/-- An OpenCV `Mat` of 8-bit samples: `rows × cols` pixels, `channels`
samples per pixel, stored row-major as `data[(r*cols + c)*channels + k]`.
(`Nat` samples; the 8-bit range is irrelevant to the claims proved here.) -/
structure Mat where
  rows : Nat
  cols : Nat
  channels : Nat
  data : List Nat
deriving DecidableEq, Repr

/-- Sample at row `r`, column `c`, channel `k` (0 outside the buffer). -/
def Mat.px (m : Mat) (r c k : Nat) : Nat :=
  m.data.getD ((r * m.cols + c) * m.channels + k) 0

/-- The buffer length matches the declared geometry. -/
abbrev Mat.sized (m : Mat) : Prop :=
  m.data.length = m.rows * m.cols * m.channels

/-- Build a `rows × cols × ch` matrix whose sample at `(r, c, k)` is `f r c k`. -/
def mkMat (rows cols ch : Nat) (f : Nat → Nat → Nat → Nat) : Mat :=
  ⟨rows, cols, ch,
   (List.range (rows * cols * ch)).map
     (fun i => f (i / ch / cols) (i / ch % cols) (i % ch))⟩

/-!
## Path handling and output-filename derivation

`convert` (src/lib.rs lines 14-16, 39-40) computes
`folder = path.parent().unwrap().to_str().unwrap()`,
`filename = path.file_name().unwrap().to_str().unwrap()` and writes to
`format!("{}/{}", folder, filename.replace(".", ".nft."))`.
The path operations below model Rust `std::path::Path` on Unix paths
(no Windows prefixes; every Lean `String` is valid UTF-8, so `to_str`
never fails in this model).
-/

/-- Split a character list on a separator character, keeping empty pieces
(the behaviour of Rust `str::split`). -/
def splitOnChar (sep : Char) : List Char → List (List Char)
  | [] => [[]]
  | x :: xs =>
    match splitOnChar sep xs with
    | [] => [[x]]
    | y :: ys => if x = sep then [] :: y :: ys else (x :: y) :: ys

/-- Does the path string start with the root separator? -/
def isAbsolute (s : String) : Bool :=
  match s.toList with
  | [] => false
  | c :: _ => c = '/'

/-- Normalized components of a Unix path, as Rust `Path::components` yields
them (minus the root): empty segments and interior `.` segments are dropped;
a leading `.` segment of a relative path is kept (`CurDir`). -/
def pathComps (s : String) : List (List Char) :=
  let raw := (splitOnChar '/' s.toList).filter (fun seg => !seg.isEmpty)
  let noDot := raw.filter (fun seg => seg ≠ ['.'])
  if isAbsolute s then noDot
  else
    match raw with
    | ['.'] :: _ => ['.'] :: noDot
    | _ => noDot

/-- Join components with `/` separators. -/
def joinSlash : List (List Char) → List Char
  | [] => []
  | [x] => x
  | x :: xs => x ++ '/' :: joinSlash xs

/-- Render a component list back to a path string (the slice Rust's
`Path::parent` returns for a path without redundant separators). -/
def renderPath (abs : Bool) (comps : List (List Char)) : String :=
  match comps with
  | [] => if abs then "/" else ""
  | _ => String.mk ((if abs then ['/'] else []) ++ joinSlash comps)

/-- Modelled from the documented behaviour of Rust `Path::parent` composed
with `to_str` (always `some` on UTF-8): the path minus its final component,
`none` for the root or the empty path. -/
def pathParent (s : String) : Option String :=
  match pathComps s with
  | [] => none
  | comps => some (renderPath (isAbsolute s) comps.dropLast)

/-- Modelled from the documented behaviour of Rust `Path::file_name` composed
with `to_str`: the final normal component, `none` when the path ends in `..`,
is the root, or is empty. -/
def pathFileName (s : String) : Option String :=
  match (pathComps s).getLast? with
  | none => none
  | some seg => if seg = ['.'] || seg = ['.', '.'] then none else some (String.mk seg)

/-- The literal replacement `".nft."` as a character list. -/
def nftMarker : List Char := '.' :: 'n' :: 'f' :: 't' :: '.' :: []

/-- Modelled from the documented behaviour of Rust
`str::replace(".", ".nft.")` for the single-character pattern `"."`:
every occurrence of `'.'` is replaced, left to right. -/
def replaceDotChars : List Char → List Char
  | [] => []
  | x :: xs =>
    if x = '.' then nftMarker ++ replaceDotChars xs else x :: replaceDotChars xs

/-- The output filename computed at src/lib.rs line 39:
`filename.replace(".", ".nft.")`. -/
def derivedName (filename : String) : String :=
  String.mk (replaceDotChars filename.toList)

/-- The output path `format!("{}/{}", folder, filename.replace(".", ".nft."))`
of src/lib.rs lines 39-40, combined with the folder/filename extraction of
lines 14-16; `none` when `convert` would panic on the `unwrap`s instead. -/
def derivedOutputPath (p : String) : Option String :=
  match pathParent p, pathFileName p with
  | some folder, some filename => some (folder ++ "/" ++ derivedName filename)
  | _, _ => none

/-- Split a character list at every `'.'` (spec reading of the filename
substitution: the pieces between dots). -/
def splitDot : List Char → List (List Char)
  | [] => [[]]
  | x :: xs =>
    match splitDot xs with
    | [] => [[x]]
    | y :: ys => if x = '.' then [] :: y :: ys else (x :: y) :: ys

/-- Rejoin dot-separated pieces with the marker `".nft."` between them. -/
def joinNft : List (List Char) → List Char
  | [] => []
  | [x] => x
  | x :: xs => x ++ nftMarker ++ joinNft xs

/-- Spec-style reading of the (amended) filename rule: split the filename at
every dot and rejoin the pieces with `".nft."`, i.e. insert the marker before
every occurrence of `.`. -/
def specInsertEveryDot (filename : String) : String :=
  String.mk (joinNft (splitDot filename.toList))

/-!
## Pipeline stages modelled concretely from the spec
-/

/-- Returns `true` exactly on `Except.error`. -/
def isError {e a : Type} : Except e a → Bool
  | .error _ => true
  | .ok _ => false

/-- Border handling for a square neighborhood of the given radius: the
coordinate `center + off - radius` clamped into `[0, n-1]` (replicated
border; for radius 1 this coincides with `BORDER_REFLECT`). -/
def borderIdx (n center off radius : Nat) : Nat :=
  if center + off < radius then 0 else min (center + off - radius) (n - 1)

/-- Sum of the 9×9 neighborhood of pixel `(r, c)` in channel 0, border
samples replicated. -/
def sumNbhd9 (m : Mat) (r c : Nat) : Nat :=
  ((List.range 9).map (fun dr =>
    ((List.range 9).map (fun dc =>
      m.px (borderIdx m.rows r dr 4) (borderIdx m.cols c dc 4) 0)).sum)).sum

/-- Modelled from the spec: OpenCV `adaptive_threshold` with
`ADAPTIVE_THRESH_MEAN_C`, `THRESH_BINARY`, `max_binary_value = 255`,
`block_size = 9`, `C = 9.0` (src/lib.rs lines 79-88): each pixel is set to
255 when its value exceeds the local 9×9 mean minus 9 (the integer
condition `src + 9 > mean`), else 0. Requires a single-channel input. -/
def adaptiveThreshold (m : Mat) : Except Err Mat :=
  if m.channels = 1 then
    .ok (mkMat m.rows m.cols 1 (fun r c _ =>
      if m.px r c 0 + 9 > sumNbhd9 m r c / 81 then 255 else 0))
  else .error "adaptive_threshold: single-channel 8-bit input required"

/-- The 3×3 neighborhood of `(r, c)` in channel `k`, `BORDER_REFLECT`
border handling (which at radius 1 coincides with clamping). -/
def nbhd3 (m : Mat) (r c k : Nat) : List Nat :=
  [m.px (borderIdx m.rows r 0 1) (borderIdx m.cols c 0 1) k,
   m.px (borderIdx m.rows r 0 1) (borderIdx m.cols c 1 1) k,
   m.px (borderIdx m.rows r 0 1) (borderIdx m.cols c 2 1) k,
   m.px (borderIdx m.rows r 1 1) (borderIdx m.cols c 0 1) k,
   m.px (borderIdx m.rows r 1 1) (borderIdx m.cols c 1 1) k,
   m.px (borderIdx m.rows r 1 1) (borderIdx m.cols c 2 1) k,
   m.px (borderIdx m.rows r 2 1) (borderIdx m.cols c 0 1) k,
   m.px (borderIdx m.rows r 2 1) (borderIdx m.cols c 1 1) k,
   m.px (borderIdx m.rows r 2 1) (borderIdx m.cols c 2 1) k]

/-- Modelled from the spec: OpenCV `dilate` with a 3×3 `MORPH_RECT`
structuring element, centered anchor, 1 iteration, `BORDER_REFLECT`
(src/lib.rs lines 91-103): each sample becomes the maximum over its 3×3
neighborhood. -/
def dilate3x3 (m : Mat) : Mat :=
  mkMat m.rows m.cols m.channels (fun r c k => (nbhd3 m r c k).foldl Nat.max 0)

/-- Function `grayscaled_to_edged` of src/lib.rs lines 76-104: adaptive threshold,
then one 3×3 dilation. -/
def grayscaled_to_edged (m : Mat) : Except Err Mat :=
  match adaptiveThreshold m with
  | .error e => .error e
  | .ok edges => .ok (dilate3x3 edges)

/-- Function `gray_from_lab` of src/lib.rs lines 66-72: `split` the channels and keep
plane 0 (the Lab lightness channel). Modelled from the spec for the OpenCV
`split` + `Vector::get(0)` pair: fails when there is no channel 0. -/
def gray_from_lab (m : Mat) : Except Err Mat :=
  if m.channels = 0 then .error "split: channel 0 unavailable"
  else .ok (mkMat m.rows m.cols 1 (fun r c _ => m.px r c 0))

/-- Function `combine_base_and_edge` of src/lib.rs lines 150-157. Modelled from the
spec for OpenCV `bitwise_and(base, base, output, edge)` with a mask: output
samples are `base AND base` where the single-channel mask is nonzero and 0
where it is zero; the call fails when the mask geometry does not match the
base image. -/
def bitwiseAndMasked (base edge : Mat) : Mat :=
  mkMat base.rows base.cols base.channels (fun r c k =>
    if edge.px r c 0 ≠ 0 then Nat.land (base.px r c k) (base.px r c k) else 0)

def combine_base_and_edge (base edge : Mat) : Except Err Mat :=
  if edge.rows = base.rows ∧ edge.cols = base.cols ∧ edge.channels = 1 then
    .ok (bitwiseAndMasked base edge)
  else .error "bitwise_and: mask size must match the array size"

/-!
## The environment: library stages the spec leaves algorithmically open
-/

/-- The external operations `convert` calls whose pixel-level behaviour the
spec does not pin down: image decode (`imread`), the two `cvt_color`
directions, `pyr_mean_shift_filtering`, `anisotropic_diffusion`, and image
encode (`imwrite`). Theorems constrain these fields only by the properties
the spec states about the corresponding stages. -/
structure Env where
  imread : String → Except Err Mat
  cvtColorBGR2Lab : Mat → Except Err Mat
  cvtColorLab2BGR : Mat → Except Err Mat
  pyrMeanShiftFiltering : Mat → Except Err Mat
  anisotropicDiffusion : Mat → Except Err Mat
  imwrite : String → Mat → Except Err Unit

/-- Function `bgr_to_lab` of src/lib.rs lines 49-53. -/
def bgr_to_lab (env : Env) (m : Mat) : Except Err Mat := env.cvtColorBGR2Lab m

/-- Function `lab_to_bgr` of src/lib.rs lines 58-62. -/
def lab_to_bgr (env : Env) (m : Mat) : Except Err Mat := env.cvtColorLab2BGR m

/-- Function `segment_colors` of src/lib.rs lines 113-129. -/
def segment_colors (env : Env) (m : Mat) : Except Err Mat := env.pyrMeanShiftFiltering m

/-- Function `anisotropic_blur` of src/lib.rs lines 136-148. -/
def anisotropic_blur (env : Env) (m : Mat) : Except Err Mat := env.anisotropicDiffusion m

/-- The pure stage chain of `convert` (src/lib.rs lines 21-36) from the
loaded BGR image to the composite, in source evaluation order: BGR→Lab,
mean-shift, Lab→BGR (the base branch); anisotropic diffusion, lightness
extraction, threshold+dilate (the edge branch); masked bitwise AND. The
first error aborts the chain (`?` in the source). -/
def pipelineOut (env : Env) (mat_bgr : Mat) : Except Err Mat :=
  match bgr_to_lab env mat_bgr with
  | .error e => .error e
  | .ok mat_lab =>
    match segment_colors env mat_lab with
    | .error e => .error e
    | .ok seg =>
      match lab_to_bgr env seg with
      | .error e => .error e
      | .ok base =>
        match anisotropic_blur env mat_lab with
        | .error e => .error e
        | .ok blurred =>
          match gray_from_lab blurred with
          | .error e => .error e
          | .ok gray =>
            match grayscaled_to_edged gray with
            | .error e => .error e
            | .ok edged => combine_base_and_edge base edged

/-- Observable outcome of one `convert` call: a panic (failed `unwrap`),
an error propagated to the caller, or success; in the latter two cases the
list of files successfully written. -/
inductive Outcome where
  | panicked : Outcome
  | errored : Err → List (String × Mat) → Outcome
  | succeeded : List (String × Mat) → Outcome
deriving DecidableEq, Repr

/-- The files written during the call. -/
def Outcome.writes : Outcome → List (String × Mat)
  | .panicked => []
  | .errored _ ws => ws
  | .succeeded ws => ws

/-- Function `convert` of src/lib.rs lines 12-44: extract `folder` and `filename`
(each `unwrap` panics on `none`), load the image, run the stage chain, and
write the composite to `folder ++ "/" ++ filename.replace(".", ".nft.")`.
Every `?` failure propagates the stage's error unchanged. -/
def convert (env : Env) (file_path : String) : Outcome :=
  match pathParent file_path with
  | none => .panicked
  | some folder =>
    match pathFileName file_path with
    | none => .panicked
    | some filename =>
      match env.imread file_path with
      | .error e => .errored e []
      | .ok mat_bgr =>
        match pipelineOut env mat_bgr with
        | .error e => .errored e []
        | .ok output =>
          match env.imwrite (folder ++ "/" ++ derivedName filename) output with
          | .error e => .errored e []
          | .ok _ => .succeeded [(folder ++ "/" ++ derivedName filename, output)]

/-- Observable outcome of a whole process run: a panic, or termination with
an exit code and the files written. -/
inductive MainRes where
  | panicked : MainRes
  | exited : Nat → List (String × Mat) → MainRes
deriving DecidableEq, Repr

/-- Function `main` of src/main.rs: `args` is `env::args()` including the program
name. When `args.len() != 2` it returns `Ok(())` at once (exit status 0, no
work); otherwise it runs `convert` on `args.nth(1)` and a propagated error
makes the process exit with status 1. -/
def rustMain (env : Env) (args : List String) : MainRes :=
  if args.length ≠ 2 then .exited 0 []
  else
    match convert env (args.getD 1 "") with
    | .panicked => .panicked
    | .errored _ ws => .exited 1 ws
    | .succeeded ws => .exited 0 ws

/-!
## Dimension-preservation predicate and concrete test fixtures
-/

/-- The property the spec states for every pipeline stage: a successful
application keeps width and height. -/
def PreservesDims (f : Mat → Except Err Mat) : Prop :=
  ∀ m m2, f m = .ok m2 → m2.rows = m.rows ∧ m2.cols = m.cols

/-- A 2×2 all-black 3-channel image. -/
def testMat : Mat := ⟨2, 2, 3, List.replicate 12 0⟩

/-- Environment in which every stage succeeds: `imread` yields `testMat`
and the four open stages are identities. -/
def idEnv : Env :=
  ⟨fun _ => .ok testMat, fun m => .ok m, fun m => .ok m, fun m => .ok m,
   fun m => .ok m, fun _ _ => .ok ()⟩

/-- Environment whose image load fails (e.g. the input path does not exist). -/
def errEnv : Env :=
  ⟨fun _ => .error "imread: file missing", fun m => .ok m, fun m => .ok m,
   fun m => .ok m, fun m => .ok m, fun _ _ => .ok ()⟩

/-- A 1×2 3-channel base image. -/
def demoBase : Mat := ⟨1, 2, 3, [1, 2, 3, 4, 5, 6]⟩

/-- An all-255 mask matching `demoBase`. -/
def demoMask255 : Mat := ⟨1, 2, 1, [255, 255]⟩

/-- An all-0 mask matching `demoBase`. -/
def demoMask0 : Mat := ⟨1, 2, 1, [0, 0]⟩

/-- A mask whose dimensions do not match `demoBase`. -/
def demoMaskBad : Mat := ⟨2, 2, 1, [255, 255, 255, 255]⟩

/-- A 1×1 grayscale image. -/
def demoGray : Mat := ⟨1, 1, 1, [100]⟩

/-!
## Helper lemmas
-/

theorem mkMat_rows (rows cols ch : Nat) (f : Nat → Nat → Nat → Nat) :
    (mkMat rows cols ch f).rows = rows := rfl

theorem mkMat_cols (rows cols ch : Nat) (f : Nat → Nat → Nat → Nat) :
    (mkMat rows cols ch f).cols = cols := rfl

theorem mkMat_channels (rows cols ch : Nat) (f : Nat → Nat → Nat → Nat) :
    (mkMat rows cols ch f).channels = ch := rfl

theorem mkMat_data_length (rows cols ch : Nat) (f : Nat → Nat → Nat → Nat) :
    (mkMat rows cols ch f).data.length = rows * cols * ch := by
  simp [mkMat]

theorem mkMat_sized (rows cols ch : Nat) (f : Nat → Nat → Nat → Nat) :
    (mkMat rows cols ch f).sized := by
  simp [Mat.sized, mkMat]

/-- Row-major encoding of in-range coordinates stays in range. -/
theorem encode_lt {rows cols ch r c k : Nat}
    (hr : r < rows) (hc : c < cols) (hk : k < ch) :
    (r * cols + c) * ch + k < rows * cols * ch := by
  have h1 : (r * cols + c) * ch + k < (r * cols + c + 1) * ch := by
    calc (r * cols + c) * ch + k < (r * cols + c) * ch + ch :=
          Nat.add_lt_add_left hk _
    _ = (r * cols + c + 1) * ch := by rw [Nat.succ_mul]
  have h2 : r * cols + c + 1 ≤ rows * cols := by
    have : r * cols + c + 1 ≤ r * cols + cols := by omega
    calc r * cols + c + 1 ≤ r * cols + cols := this
    _ = (r + 1) * cols := by rw [Nat.succ_mul]
    _ ≤ rows * cols := Nat.mul_le_mul_right _ hr
  exact Nat.lt_of_lt_of_le h1 (Nat.mul_le_mul_right _ h2)

theorem mkMat_data_getD (rows cols ch : Nat) (f : Nat → Nat → Nat → Nat)
    (i : Nat) (h : i < rows * cols * ch) :
    (mkMat rows cols ch f).data.getD i 0 = f (i / ch / cols) (i / ch % cols) (i % ch) := by
  simp [mkMat, List.getD_eq_getElem?_getD, List.getElem?_map, List.getElem?_range, h]

/-- Reading `mkMat` at in-range coordinates yields the generator. -/
theorem mkMat_px (rows cols ch : Nat) (f : Nat → Nat → Nat → Nat)
    {r c k : Nat} (hr : r < rows) (hc : c < cols) (hk : k < ch) :
    (mkMat rows cols ch f).px r c k = f r c k := by
  have hch : 0 < ch := Nat.lt_of_le_of_lt (Nat.zero_le _) hk
  have hcols : 0 < cols := Nat.lt_of_le_of_lt (Nat.zero_le _) hc
  have hidx : (r * cols + c) * ch + k < rows * cols * ch := encode_lt hr hc hk
  show (mkMat rows cols ch f).data.getD ((r * cols + c) * ch + k) 0 = f r c k
  rw [mkMat_data_getD rows cols ch f _ hidx]
  have e1 : ((r * cols + c) * ch + k) / ch = r * cols + c := by
    rw [Nat.mul_comm (r * cols + c) ch, Nat.mul_add_div hch,
        Nat.div_eq_of_lt hk, Nat.add_zero]
  have e2 : ((r * cols + c) * ch + k) % ch = k := by
    rw [Nat.mul_comm (r * cols + c) ch, Nat.mul_add_mod, Nat.mod_eq_of_lt hk]
  have e3 : (r * cols + c) / cols = r := by
    rw [Nat.mul_comm r cols, Nat.mul_add_div hcols,
        Nat.div_eq_of_lt hc, Nat.add_zero]
  have e4 : (r * cols + c) % cols = c := by
    rw [Nat.mul_comm r cols, Nat.mul_add_mod, Nat.mod_eq_of_lt hc]
  rw [e1, e2, e3, e4]

/-- Every sample of a `mkMat` buffer is the generator at some in-range triple. -/
theorem mem_mkMat_data {rows cols ch : Nat} {f : Nat → Nat → Nat → Nat} {v : Nat}
    (hv : v ∈ (mkMat rows cols ch f).data) :
    ∃ r c k, r < rows ∧ c < cols ∧ k < ch ∧ v = f r c k := by
  simp only [mkMat, List.mem_map, List.mem_range] at hv
  obtain ⟨i, hi, hfi⟩ := hv
  have hch : 0 < ch := by
    rcases Nat.eq_zero_or_pos ch with h0 | h1
    · rw [h0, Nat.mul_zero] at hi; omega
    · exact h1
  have hcols : 0 < cols := by
    rcases Nat.eq_zero_or_pos cols with h0 | h1
    · rw [h0] at hi; simp at hi
    · exact h1
  refine ⟨i / ch / cols, i / ch % cols, i % ch, ?_, Nat.mod_lt _ hcols, Nat.mod_lt _ hch, hfi.symm⟩
  have hdiv : i / ch < rows * cols := by
    have hlt : i < ch * (rows * cols) := by
      calc i < rows * cols * ch := hi
      _ = ch * (rows * cols) := by ring
    exact Nat.div_lt_of_lt_mul hlt
  have hdiv2 : i / ch < cols * rows := by rwa [Nat.mul_comm cols rows]
  exact Nat.div_lt_of_lt_mul hdiv2

/-- Decoding an in-range linear index and re-encoding recovers the index. -/
theorem decode_encode {rows cols ch : Nat} (i : Nat) (_ : i < rows * cols * ch) :
    ((i / ch / cols) * cols + i / ch % cols) * ch + i % ch = i := by
  have h1 : (i / ch / cols) * cols + i / ch % cols = i / ch := Nat.div_add_mod' (i / ch) cols
  rw [h1, Nat.div_add_mod' i ch]

theorem splitOnChar_ne_nil (sep : Char) (l : List Char) : splitOnChar sep l ≠ [] := by
  cases l with
  | nil => simp [splitOnChar]
  | cons x xs =>
    simp only [splitOnChar]
    cases h : splitOnChar sep xs with
    | nil => simp
    | cons y ys =>
      by_cases hx : x = sep <;> simp [hx]

theorem splitDot_ne_nil (l : List Char) : splitDot l ≠ [] := by
  cases l with
  | nil => simp [splitDot]
  | cons x xs =>
    simp only [splitDot]
    cases h : splitDot xs with
    | nil => simp
    | cons y ys =>
      by_cases hx : x = '.' <;> simp [hx]

theorem replaceDotChars_eq_joinNft_splitDot (l : List Char) :
    replaceDotChars l = joinNft (splitDot l) := by
  induction l with
  | nil => rfl
  | cons x xs ih =>
    obtain ⟨y, ys, hsplit⟩ : ∃ y ys, splitDot xs = y :: ys := by
      cases h : splitDot xs with
      | nil => exact absurd h (splitDot_ne_nil xs)
      | cons y ys => exact ⟨y, ys, rfl⟩
    by_cases hx : x = '.'
    · subst hx
      simp only [replaceDotChars, if_pos rfl, splitDot, hsplit, ih]
      rfl
    · simp only [replaceDotChars, if_neg hx, splitDot, hsplit, if_neg hx, ih]
      cases ys with
      | nil => rfl
      | cons z zs => simp [joinNft]

/-- A filename without a dot is left unchanged by the substitution. -/
theorem replaceDotChars_of_no_dot (l : List Char) (h : '.' ∉ l) :
    replaceDotChars l = l := by
  induction l with
  | nil => rfl
  | cons x xs ih =>
    have hx : x ≠ '.' := by
      intro hx; exact h (hx ▸ List.mem_cons_self x xs)
    have hxs : '.' ∉ xs := fun hm => h (List.mem_cons_of_mem _ hm)
    simp [replaceDotChars, if_neg hx, ih hxs]

theorem decode_bounds {rows cols ch i : Nat} (h : i < rows * cols * ch) :
    i / ch / cols < rows ∧ i / ch % cols < cols ∧ i % ch < ch := by
  have hch : 0 < ch := by
    rcases Nat.eq_zero_or_pos ch with h0 | h1
    · rw [h0, Nat.mul_zero] at h; omega
    · exact h1
  have hcols : 0 < cols := by
    rcases Nat.eq_zero_or_pos cols with h0 | h1
    · rw [h0] at h; simp at h
    · exact h1
  refine ⟨?_, Nat.mod_lt _ hcols, Nat.mod_lt _ hch⟩
  have hdiv : i / ch < rows * cols := by
    have hlt : i < ch * (rows * cols) := by
      calc i < rows * cols * ch := h
      _ = ch * (rows * cols) := by ring
    exact Nat.div_lt_of_lt_mul hlt
  have hdiv2 : i / ch < cols * rows := by rwa [Nat.mul_comm cols rows]
  exact Nat.div_lt_of_lt_mul hdiv2

theorem Mat.eq_of_fields {m1 m2 : Mat} (hr : m1.rows = m2.rows) (hc : m1.cols = m2.cols)
    (hch : m1.channels = m2.channels) (hd : m1.data = m2.data) : m1 = m2 := by
  cases m1; cases m2
  simp only at hr hc hch hd
  subst hr; subst hc; subst hch; subst hd
  rfl

/-- Inversion for `convert`: a recorded write forces successful path
extraction, load, pipeline, and pins the written path. -/
theorem convert_mem_writes {env : Env} {p pr : String} {m : Mat}
    (hmem : (pr, m) ∈ (convert env p).writes) :
    ∃ folder filename mat_bgr,
      pathParent p = some folder ∧ pathFileName p = some filename ∧
      env.imread p = .ok mat_bgr ∧ pipelineOut env mat_bgr = .ok m ∧
      pr = folder ++ "/" ++ derivedName filename := by
  unfold convert at hmem
  split at hmem
  · simp [Outcome.writes] at hmem
  · rename_i folder hpar
    split at hmem
    · simp [Outcome.writes] at hmem
    · rename_i filename hfn
      split at hmem
      · simp [Outcome.writes] at hmem
      · rename_i mat_bgr hrd
        split at hmem
        · simp [Outcome.writes] at hmem
        · rename_i output hpl
          split at hmem
          · simp [Outcome.writes] at hmem
          · simp only [Outcome.writes, List.mem_singleton, Prod.mk.injEq] at hmem
            obtain ⟨hpr2, hm2⟩ := hmem
            subst hm2
            exact ⟨folder, filename, mat_bgr, hpar, hfn, hrd, hpl, hpr2⟩

/-- A failed `convert` never records a successful write: the `?` chain stops
at the first error and `imwrite` is the last operation. -/
theorem convert_errored_no_writes {env : Env} {p : String} {e : Err}
    {ws : List (String × Mat)} (h : convert env p = .errored e ws) : ws = [] := by
  unfold convert at h
  split at h
  · simp at h
  · split at h
    · simp at h
    · split at h
      · simp only [Outcome.errored.injEq] at h
        exact h.2.symm
      · split at h
        · simp only [Outcome.errored.injEq] at h
          exact h.2.symm
        · split at h
          · simp only [Outcome.errored.injEq] at h
            exact h.2.symm
          · simp at h

theorem gray_from_lab_dims {m g : Mat} (h : gray_from_lab m = .ok g) :
    g.rows = m.rows ∧ g.cols = m.cols := by
  unfold gray_from_lab at h
  by_cases hch : m.channels = 0
  · simp [hch] at h
  · simp only [hch, if_neg, ite_false, Except.ok.injEq] at h
    rw [← h]
    exact ⟨rfl, rfl⟩

theorem adaptiveThreshold_dims {m t : Mat} (h : adaptiveThreshold m = .ok t) :
    t.rows = m.rows ∧ t.cols = m.cols := by
  unfold adaptiveThreshold at h
  by_cases hch : m.channels = 1
  · simp only [hch, ite_true, Except.ok.injEq] at h
    rw [← h]
    exact ⟨rfl, rfl⟩
  · simp [hch] at h

theorem dilate3x3_dims (m : Mat) :
    (dilate3x3 m).rows = m.rows ∧ (dilate3x3 m).cols = m.cols :=
  ⟨rfl, rfl⟩

theorem grayscaled_to_edged_dims {m em : Mat} (h : grayscaled_to_edged m = .ok em) :
    em.rows = m.rows ∧ em.cols = m.cols := by
  unfold grayscaled_to_edged at h
  cases ht : adaptiveThreshold m with
  | error e => rw [ht] at h; simp at h
  | ok edges =>
    rw [ht] at h
    simp only [Except.ok.injEq] at h
    have hd := adaptiveThreshold_dims ht
    rw [← h]
    exact ⟨hd.1, hd.2⟩

theorem combine_base_and_edge_dims {base edge m : Mat}
    (h : combine_base_and_edge base edge = .ok m) :
    m.rows = base.rows ∧ m.cols = base.cols := by
  unfold combine_base_and_edge at h
  by_cases hc : edge.rows = base.rows ∧ edge.cols = base.cols ∧ edge.channels = 1
  · rw [if_pos hc] at h
    simp only [Except.ok.injEq] at h
    rw [← h]
    exact ⟨rfl, rfl⟩
  · rw [if_neg hc] at h
    simp at h

/-- Dimension preservation for the whole stage chain, given the spec's
dimension statements for the four open stages. -/
theorem pipelineOut_dims {env : Env} {mat_bgr out : Mat}
    (h1 : PreservesDims env.cvtColorBGR2Lab) (h2 : PreservesDims env.cvtColorLab2BGR)
    (h3 : PreservesDims env.pyrMeanShiftFiltering)
    (h4 : PreservesDims env.anisotropicDiffusion)
    (h : pipelineOut env mat_bgr = .ok out) :
    out.rows = mat_bgr.rows ∧ out.cols = mat_bgr.cols := by
  unfold pipelineOut bgr_to_lab segment_colors lab_to_bgr anisotropic_blur at h
  split at h
  · simp at h
  · rename_i mat_lab ha
    split at h
    · simp at h
    · rename_i seg hb
      split at h
      · simp at h
      · rename_i base hc
        split at h
        · simp at h
        · rename_i blurred hd
          split at h
          · simp at h
          · rename_i gray he
            split at h
            · simp at h
            · rename_i edged hf
              have da := h1 _ _ ha
              have db := h3 _ _ hb
              have dc := h2 _ _ hc
              have dg := combine_base_and_edge_dims h
              exact ⟨by rw [dg.1, dc.1, db.1, da.1], by rw [dg.2, dc.2, db.2, da.2]⟩

theorem preservesDims_ok_id : PreservesDims (fun m => .ok m) := by
  intro m m2 h
  simp only [Except.ok.injEq] at h
  subst h
  exact ⟨rfl, rfl⟩

theorem foldl_max_binary {l : List Nat} (hl : ∀ v ∈ l, v = 0 ∨ v = 255) :
    ∀ a, a = 0 ∨ a = 255 → (l.foldl Nat.max a = 0 ∨ l.foldl Nat.max a = 255) := by
  induction l with
  | nil => intro a ha; simpa using ha
  | cons x xs ih =>
    intro a ha
    have hx : x = 0 ∨ x = 255 := hl x (List.mem_cons_self x xs)
    have hxs : ∀ v ∈ xs, v = 0 ∨ v = 255 := fun v hv => hl v (List.mem_cons_of_mem _ hv)
    have hmax : Nat.max a x = 0 ∨ Nat.max a x = 255 := by
      rcases ha with ha | ha <;> rcases hx with hx | hx <;> subst ha <;> subst hx <;> simp
    rw [List.foldl_cons]
    exact ih hxs (Nat.max a x) hmax

theorem getD_binary {l : List Nat} (hl : ∀ v ∈ l, v = 0 ∨ v = 255) (i : Nat) :
    l.getD i 0 = 0 ∨ l.getD i 0 = 255 := by
  by_cases h : i < l.length
  · rw [List.getD_eq_getElem l 0 h]
    exact hl _ (List.getElem_mem h)
  · rw [List.getD_eq_default]
    · exact Or.inl rfl
    · omega

theorem px_binary {m : Mat} (hm : ∀ v ∈ m.data, v = 0 ∨ v = 255) (r c k : Nat) :
    m.px r c k = 0 ∨ m.px r c k = 255 :=
  getD_binary hm _

/-!
## Claims
-/

/-- C1 counterexample: the code's substitution `filename.replace(".", ".nft.")`
replaces every occurrence of `.`, so for the multi-dot filename `a.b.jpg` the
derived output filename is `a.nft.b.nft.jpg`, not `a.nft.b.jpg` as the claim
states. -/
theorem C1_counterexample :
    derivedName "a.b.jpg" = "a.nft.b.nft.jpg" ∧ derivedName "a.b.jpg" ≠ "a.nft.b.jpg" := by
  constructor
  · decide
  · decide

/-- C1 (amended): the output filename is derived by inserting the marker
`.nft` immediately before EVERY occurrence of `.` in the original filename
(equivalently, splitting at the dots and rejoining with `.nft.`); in
particular `a.b.jpg` derives `a.nft.b.nft.jpg`. -/
theorem C1_marker_before_every_dot :
    (∀ filename : String, derivedName filename = specInsertEveryDot filename)
    ∧ derivedName "a.b.jpg" = "a.nft.b.nft.jpg" := by
  constructor
  · intro f
    unfold derivedName specInsertEveryDot
    rw [replaceDotChars_eq_joinNft_splitDot]
  · decide

/-- C2: with an argument count other than 2 (program name plus exactly one
positional argument), `main` returns `Ok(())` immediately: exit status 0,
no pipeline work, no file written. -/
theorem C2_bad_arg_count_is_silent_noop (env : Env) (args : List String)
    (h : args.length ≠ 2) :
    rustMain env args = .exited 0 [] := by
  unfold rustMain
  rw [if_pos h]

theorem C2_bad_arg_count_is_silent_noop_witness :
    (["nftimg"] : List String).length ≠ 2
    ∧ rustMain errEnv ["nftimg"] = .exited 0 [] :=
  ⟨by decide, C2_bad_arg_count_is_silent_noop errEnv ["nftimg"] (by decide)⟩

/-- C3: when the image load fails (nonexistent or undecodable input), its
error is propagated unchanged to the top level, no later stage runs, no
file is written, and the process exits with the non-zero status 1;
moreover no failing run of `convert` ever records a write. -/
theorem C3_load_error_propagates (env : Env) (p folder filename : String) (e : Err)
    (h1 : pathParent p = some folder) (h2 : pathFileName p = some filename)
    (h3 : env.imread p = .error e) :
    convert env p = .errored e []
    ∧ (∀ prog : String, rustMain env [prog, p] = .exited 1 [])
    ∧ (∀ env2 : Env, ∀ p2 : String, ∀ e2 : Err, ∀ ws : List (String × Mat),
        convert env2 p2 = .errored e2 ws → ws = []) := by
  have hconv : convert env p = .errored e [] := by
    unfold convert
    rw [h1, h2, h3]
  refine ⟨hconv, ?_, fun env2 p2 e2 ws h => convert_errored_no_writes h⟩
  intro prog
  unfold rustMain
  have hlen : ¬([prog, p].length ≠ 2) := by simp
  rw [if_neg hlen]
  have harg : ([prog, p].getD 1 "") = p := rfl
  rw [harg, hconv]

theorem C3_load_error_propagates_witness :
    pathParent "/tmp/missing.jpg" = some "/tmp"
    ∧ pathFileName "/tmp/missing.jpg" = some "missing.jpg"
    ∧ errEnv.imread "/tmp/missing.jpg" = .error "imread: file missing"
    ∧ convert errEnv "/tmp/missing.jpg" = .errored "imread: file missing" []
    ∧ rustMain errEnv ["nftimg", "/tmp/missing.jpg"] = .exited 1 [] :=
  ⟨by decide, by decide, rfl,
   (C3_load_error_propagates errEnv "/tmp/missing.jpg" "/tmp" "missing.jpg"
     "imread: file missing" (by decide) (by decide) rfl).1,
   (C3_load_error_propagates errEnv "/tmp/missing.jpg" "/tmp" "missing.jpg"
     "imread: file missing" (by decide) (by decide) rfl).2.1 "nftimg"⟩

/-- C7: for the input path `/tmp/photo.jpg` the derived output path is
exactly `/tmp/photo.nft.jpg`, and any file `convert` writes for that input
is written at exactly that path. -/
theorem C7_single_dot_output_path :
    derivedOutputPath "/tmp/photo.jpg" = some "/tmp/photo.nft.jpg"
    ∧ (∀ env : Env, ∀ pr : String, ∀ m : Mat,
        (pr, m) ∈ (convert env "/tmp/photo.jpg").writes → pr = "/tmp/photo.nft.jpg") := by
  constructor
  · decide
  · intro env pr m hmem
    obtain ⟨folder, filename, mat_bgr, hp, hf, _, _, hpr⟩ := convert_mem_writes hmem
    have hp2 : pathParent "/tmp/photo.jpg" = some "/tmp" := by decide
    have hf2 : pathFileName "/tmp/photo.jpg" = some "photo.jpg" := by decide
    rw [hp2] at hp
    rw [hf2] at hf
    injection hp with hp3
    injection hf with hf3
    rw [hpr, ← hp3, ← hf3]
    decide

theorem C7_single_dot_output_path_witness :
    (("/tmp/photo.nft.jpg", testMat) ∈ (convert idEnv "/tmp/photo.jpg").writes)
    ∧ ("/tmp/photo.nft.jpg" : String) = "/tmp/photo.nft.jpg" :=
  ⟨by decide,
   C7_single_dot_output_path.2 idEnv "/tmp/photo.nft.jpg" testMat (by decide)⟩

/-- C9 counterexample: for the dot-free input path `photo`, the filename
substitution indeed leaves `photo` unchanged, but `Path::parent` yields the
empty string, so `format!("{}/{}", folder, filename)` derives `/photo`,
which is NOT the input path — the claim that the derived output path always
equals the input path fails. -/
theorem C9_counterexample :
    ('.' ∉ "photo".toList)
    ∧ derivedOutputPath "photo" = some "/photo"
    ∧ ("/photo" : String) ≠ "photo" := by
  refine ⟨by decide, by decide, by decide⟩

/-- C9 (amended): if the input filename contains no `.`, the substitution
leaves it unchanged and the derived output path is `<parent>/<filename>`;
for a path with a nonempty parent directory (such as `/tmp/photo`) this
equals the input path, so a successful run overwrites the input file — but
for a bare one-component path such as `photo` the parent renders as the
empty string and the derived path is `/photo`, not the input path. -/
theorem C9_no_dot_keeps_name :
    (∀ name : String, '.' ∉ name.toList → derivedName name = name)
    ∧ derivedOutputPath "/tmp/photo" = some "/tmp/photo"
    ∧ derivedOutputPath "photo" = some "/photo" := by
  refine ⟨?_, by decide, by decide⟩
  intro name h
  unfold derivedName
  rw [replaceDotChars_of_no_dot _ h]
  cases name
  rfl

/-- C10: whenever parent or file-name extraction yields nothing — e.g. for
the root path `/` (no parent) or a path ending in `..` (no file name) — the
`unwrap`s at the top of `convert` panic, for every environment: the run
aborts before the image load or any pipeline stage. -/
theorem C10_unwrap_panics (env : Env) (p : String)
    (h : pathParent p = none ∨ pathFileName p = none) :
    convert env p = .panicked := by
  unfold convert
  rcases h with h | h
  · rw [h]
  · cases hp : pathParent p with
    | none => rfl
    | some folder => rw [h]

theorem C10_unwrap_panics_witness :
    (pathParent "/" = none ∨ pathFileName "/" = none)
    ∧ convert errEnv "/" = .panicked
    ∧ convert errEnv "src/a/.." = .panicked :=
  ⟨Or.inl (by decide),
   C10_unwrap_panics errEnv "/" (Or.inl (by decide)),
   C10_unwrap_panics errEnv "src/a/.." (Or.inr (by decide))⟩

theorem C9_no_dot_keeps_name_witness :
    ('.' ∉ "photo".toList) ∧ derivedName "photo" = "photo" :=
  ⟨by decide, C9_no_dot_keeps_name.1 "photo" (by decide)⟩

theorem mkMat_data_getElem (rows cols ch : Nat) (f : Nat → Nat → Nat → Nat)
    (i : Nat) (h : i < (mkMat rows cols ch f).data.length) :
    (mkMat rows cols ch f).data[i] = f (i / ch / cols) (i / ch % cols) (i % ch) := by
  simp [mkMat]

theorem Nat_land_self (x : Nat) : Nat.land x x = x := Nat.and_self x

/-- C4: compositor algebra. With the mask geometry matching the base image:
an all-255 mask reproduces the base image exactly; an all-0 mask yields an
all-black image of the base's dimensions; in general a zero mask pixel
forces a zero output pixel and a nonzero mask pixel keeps the base pixel
(AND of the pixel with itself); and the operation fails whenever base and
mask dimensions differ. -/
theorem C4_compositor (base edge : Mat) (hsz : base.sized)
    (hr : edge.rows = base.rows) (hc : edge.cols = base.cols) (hch : edge.channels = 1) :
    ((∀ r, r < base.rows → ∀ c, c < base.cols → edge.px r c 0 = 255) →
      combine_base_and_edge base edge = .ok base)
    ∧ ((∀ r, r < base.rows → ∀ c, c < base.cols → edge.px r c 0 = 0) →
      ∀ m, combine_base_and_edge base edge = .ok m →
        m.rows = base.rows ∧ m.cols = base.cols ∧ m.channels = base.channels ∧
        ∀ v ∈ m.data, v = 0)
    ∧ (∀ m, combine_base_and_edge base edge = .ok m →
      ∀ r c k, r < base.rows → c < base.cols → k < base.channels →
        (edge.px r c 0 = 0 → m.px r c k = 0) ∧
        (edge.px r c 0 ≠ 0 → m.px r c k = base.px r c k))
    ∧ (∀ edge2 : Mat, edge2.rows ≠ base.rows ∨ edge2.cols ≠ base.cols →
      isError (combine_base_and_edge base edge2) = true) := by
  have hcond : edge.rows = base.rows ∧ edge.cols = base.cols ∧ edge.channels = 1 :=
    ⟨hr, hc, hch⟩
  have hcomb : combine_base_and_edge base edge = .ok (bitwiseAndMasked base edge) := by
    unfold combine_base_and_edge
    rw [if_pos hcond]
  refine ⟨?_, ?_, ?_, ?_⟩
  · intro hmask
    rw [hcomb]
    refine congrArg Except.ok (Mat.eq_of_fields rfl rfl rfl ?_)
    refine List.ext_getElem ?_ ?_
    · show (bitwiseAndMasked base edge).data.length = base.data.length
      unfold bitwiseAndMasked
      rw [mkMat_data_length]
      exact hsz.symm
    · intro i h1 h2
      have hN : i < base.rows * base.cols * base.channels := by
        have h3 := h1
        unfold bitwiseAndMasked at h3
        rwa [mkMat_data_length] at h3
      obtain ⟨hb1, hb2, hb3⟩ := decode_bounds hN
      show (bitwiseAndMasked base edge).data[i] = base.data[i]
      unfold bitwiseAndMasked
      rw [mkMat_data_getElem]
      have hm : edge.px (i / base.channels / base.cols) (i / base.channels % base.cols) 0 = 255 :=
        hmask _ hb1 _ hb2
      rw [hm]
      have h255 : (255 : Nat) ≠ 0 := by decide
      rw [if_pos h255, Nat_land_self]
      show base.data.getD
        ((i / base.channels / base.cols * base.cols + i / base.channels % base.cols) *
          base.channels + i % base.channels) 0 = base.data[i]
      rw [decode_encode i hN]
      exact List.getD_eq_getElem base.data 0 h2
  · intro hmask m hm
    rw [hcomb] at hm
    simp only [Except.ok.injEq] at hm
    subst hm
    refine ⟨rfl, rfl, rfl, ?_⟩
    intro v hv
    unfold bitwiseAndMasked at hv
    obtain ⟨r, c, k, hbr, hbc, hbk, hval⟩ := mem_mkMat_data hv
    rw [hval, hmask _ hbr _ hbc]
    simp
  · intro m hm r c k hbr hbc hbk
    rw [hcomb] at hm
    simp only [Except.ok.injEq] at hm
    subst hm
    constructor
    · intro h0
      show (bitwiseAndMasked base edge).px r c k = 0
      unfold bitwiseAndMasked
      rw [mkMat_px _ _ _ _ hbr hbc hbk, h0]
      simp
    · intro hne
      show (bitwiseAndMasked base edge).px r c k = base.px r c k
      unfold bitwiseAndMasked
      rw [mkMat_px _ _ _ _ hbr hbc hbk, if_pos hne, Nat_land_self]
  · intro edge2 hne
    have hno : ¬(edge2.rows = base.rows ∧ edge2.cols = base.cols ∧ edge2.channels = 1) := by
      intro hcon
      rcases hne with hne | hne
      · exact hne hcon.1
      · exact hne hcon.2.1
    unfold combine_base_and_edge
    rw [if_neg hno]
    rfl

theorem C4_compositor_witness :
    demoBase.sized
    ∧ combine_base_and_edge demoBase demoMask255 = .ok demoBase
    ∧ isError (combine_base_and_edge demoBase demoMaskBad) = true :=
  ⟨by decide,
   (C4_compositor demoBase demoMask255 (by decide) rfl rfl rfl).1 (by decide),
   (C4_compositor demoBase demoMask255 (by decide) rfl rfl rfl).2.2.2 demoMaskBad
     (Or.inl (by decide))⟩

/-- C5: for every single-channel input, the adaptive threshold produces only
the values 0 and 255, dilation preserves any {0, 255}-valued buffer, and
hence the edge mask produced by `grayscaled_to_edged` contains only the two
values 0 and 255. -/
theorem C5_edge_mask_binary (m : Mat) (hch : m.channels = 1) :
    (∀ tm, adaptiveThreshold m = .ok tm → ∀ v ∈ tm.data, v = 0 ∨ v = 255)
    ∧ (∀ g : Mat, (∀ v ∈ g.data, v = 0 ∨ v = 255) →
        ∀ v ∈ (dilate3x3 g).data, v = 0 ∨ v = 255)
    ∧ (∀ em, grayscaled_to_edged m = .ok em → ∀ v ∈ em.data, v = 0 ∨ v = 255) := by
  have hth : ∀ tm, adaptiveThreshold m = .ok tm → ∀ v ∈ tm.data, v = 0 ∨ v = 255 := by
    intro tm h v hv
    unfold adaptiveThreshold at h
    rw [if_pos hch] at h
    simp only [Except.ok.injEq] at h
    rw [← h] at hv
    obtain ⟨r, c, k, hbr, hbc, hbk, hval⟩ := mem_mkMat_data hv
    rw [hval]
    by_cases hcond : m.px r c 0 + 9 > sumNbhd9 m r c / 81
    · rw [if_pos hcond]
      exact Or.inr rfl
    · rw [if_neg hcond]
      exact Or.inl rfl
  have hdil : ∀ g : Mat, (∀ v ∈ g.data, v = 0 ∨ v = 255) →
      ∀ v ∈ (dilate3x3 g).data, v = 0 ∨ v = 255 := by
    intro g hg v hv
    unfold dilate3x3 at hv
    obtain ⟨r, c, k, hbr, hbc, hbk, hval⟩ := mem_mkMat_data hv
    rw [hval]
    have hnb : ∀ x ∈ nbhd3 g r c k, x = 0 ∨ x = 255 := by
      intro x hx
      simp only [nbhd3, List.mem_cons, List.not_mem_nil, or_false] at hx
      rcases hx with h | h | h | h | h | h | h | h | h <;> rw [h] <;> exact px_binary hg _ _ _
    exact foldl_max_binary hnb 0 (Or.inl rfl)
  refine ⟨hth, hdil, ?_⟩
  intro em h v hv
  unfold grayscaled_to_edged at h
  cases ht : adaptiveThreshold m with
  | error e => rw [ht] at h; simp at h
  | ok edges =>
    rw [ht] at h
    simp only [Except.ok.injEq] at h
    rw [← h] at hv
    exact hdil edges (hth edges ht) v hv

theorem C5_edge_mask_binary_witness :
    demoGray.channels = 1
    ∧ grayscaled_to_edged demoGray = .ok ⟨1, 1, 1, [255]⟩
    ∧ ((255 : Nat) = 0 ∨ (255 : Nat) = 255) :=
  ⟨rfl, by decide,
   (C5_edge_mask_binary demoGray rfl).2.2 ⟨1, 1, 1, [255]⟩ (by decide) 255 (by decide)⟩

/-- C6: assuming the spec's dimension statements for the four open stages
(colour conversions, mean-shift, anisotropic diffusion), any image `convert`
writes has exactly the width and height of the loaded input image — the
concrete stages (channel extraction, threshold, dilation, masked AND) are
proved dimension-preserving outright. -/
theorem C6_output_dims_match_input (env : Env) (p : String)
    (h1 : PreservesDims env.cvtColorBGR2Lab) (h2 : PreservesDims env.cvtColorLab2BGR)
    (h3 : PreservesDims env.pyrMeanShiftFiltering)
    (h4 : PreservesDims env.anisotropicDiffusion)
    (mat_bgr : Mat) (hload : env.imread p = .ok mat_bgr)
    (pr : String) (out : Mat) (hmem : (pr, out) ∈ (convert env p).writes) :
    out.rows = mat_bgr.rows ∧ out.cols = mat_bgr.cols := by
  obtain ⟨folder, filename, bgr2, hp, hf, hrd, hpl, hpr⟩ := convert_mem_writes hmem
  rw [hload] at hrd
  injection hrd with hb
  subst hb
  exact pipelineOut_dims h1 h2 h3 h4 hpl

theorem C6_output_dims_match_input_witness :
    idEnv.imread "/t/a.png" = .ok testMat
    ∧ (("/t/a.nft.png", (⟨2, 2, 3, List.replicate 12 0⟩ : Mat)) ∈ (convert idEnv "/t/a.png").writes)
    ∧ (⟨2, 2, 3, List.replicate 12 0⟩ : Mat).rows = testMat.rows
    ∧ (⟨2, 2, 3, List.replicate 12 0⟩ : Mat).cols = testMat.cols :=
  ⟨rfl, by decide,
   (C6_output_dims_match_input idEnv "/t/a.png" preservesDims_ok_id preservesDims_ok_id
     preservesDims_ok_id preservesDims_ok_id testMat rfl "/t/a.nft.png"
     ⟨2, 2, 3, List.replicate 12 0⟩ (by decide)).1,
   (C6_output_dims_match_input idEnv "/t/a.png" preservesDims_ok_id preservesDims_ok_id
     preservesDims_ok_id preservesDims_ok_id testMat rfl "/t/a.nft.png"
     ⟨2, 2, 3, List.replicate 12 0⟩ (by decide)).2⟩
